import Mathlib

/-
Shallow embedding of the xmap package (a generic Go map with per-key
expiration) from src/map.go and src/time.go.

Modelling choices:
- `time.Time` instants are natural numbers; `0` is the zero instant
  (`time.Time{}.IsZero()`), which the code uses as the "never expires"
  sentinel.  `time.Duration` ttl values are integers (Go durations are
  signed).  `t.After(u)` is strict `u < t`.
- The Go built-in `map[K]*entry[V]` is an association list with unique
  keys; `m.kv[key] = e` replaces the binding in place or appends it,
  `delete` removes the binding, `len` is the list length.
- Every method of `Map` that consults the time source takes the current
  instant `now` as an explicit argument (the Go code reads it from the
  injected `Time` source).
- Methods are sequential: the mutex only serialises operations, so in
  the per-operation model each method is a function on the map state.
- Go mutates `entry.value` through a pointer in `Update`; the model
  replaces the binding with an entry holding the same expiry.
-/

namespace XMapModel

/-- `entry` from map.go: the stored value plus its absolute expiration
instant (`0` = zero time = never expires). -/
structure Entry (V : Type) where
  value : V
  exp : Nat
deriving Repr, DecidableEq

/-- `Map` from map.go: the key/value table plus the `stopped` flag set by
`Stop` (the mutex, ticker channel and `active` flag have no sequential
content). -/
structure Map (K V : Type) where
  kv : List (K × Entry V)
  stopped : Bool
deriving Repr, DecidableEq

variable {K V : Type} [DecidableEq K]

/-- `Map.expired` from map.go:
`!entry.exp.IsZero() && m.time.Now().After(entry.exp)`. -/
def expired (now : Nat) (e : Entry V) : Bool :=
  (e.exp != 0) && decide (e.exp < now)

/-- Go map assignment `m.kv[key] = e`: replace the existing binding in
place, or append a new one. -/
def setKV (key : K) (e : Entry V) : List (K × Entry V) → List (K × Entry V)
  | [] => [(key, e)]
  | (k, e') :: rest =>
    if k = key then (key, e) :: rest else (k, e') :: setKV key e rest

/-- Go map deletion `delete(m.kv, key)`. -/
def eraseKV (key : K) (t : List (K × Entry V)) : List (K × Entry V) :=
  t.filter (fun p => !decide (p.1 = key))

/-- Go map indexing `entry, ok := m.kv[key]`. -/
def lookupKV (key : K) : List (K × Entry V) → Option (Entry V)
  | [] => none
  | (k, e) :: rest => if k = key then some e else lookupKV key rest

/-- `New` from map.go: fresh map, not stopped. -/
def Map.New : Map K V := { kv := [], stopped := false }

/-- `Map.Stop` from map.go: the `stopped.CompareAndSwap(0, 1)` succeeds
exactly once; the winner clears the table. -/
def Map.Stop (m : Map K V) : Map K V :=
  if m.stopped then m else { kv := [], stopped := true }

/-- `Map.Stopped` from map.go. -/
def Map.Stopped (m : Map K V) : Bool := m.stopped

/-- `Map.Len` from map.go: raw table size. -/
def Map.Len (m : Map K V) : Nat := m.kv.length

/-- `Map.Set` from map.go: `exp = now + ttl` when `ttl > 0`, otherwise the
zero instant; then unconditional insert/replace. -/
def Map.Set (m : Map K V) (now : Nat) (key : K) (value : V) (ttl : Int) :
    Map K V :=
  let exp : Nat := if 0 < ttl then now + ttl.toNat else 0
  { m with kv := setKV key ⟨value, exp⟩ m.kv }

/-- `Map.Update` from map.go: replace only the value when the key exists
and is not expired; report whether an update happened. -/
def Map.Update (m : Map K V) (now : Nat) (key : K) (value : V) :
    Bool × Map K V :=
  match lookupKV key m.kv with
  | some e =>
    if expired now e then (false, m)
    else (true, { m with kv := setKV key ⟨value, e.exp⟩ m.kv })
  | none => (false, m)

/-- `Map.Get` from map.go: value and found flag; the zero value of `V` is
`default`. -/
def Map.Get [Inhabited V] (m : Map K V) (now : Nat) (key : K) : V × Bool :=
  match lookupKV key m.kv with
  | some e => if expired now e then (default, false) else (e.value, true)
  | none => (default, false)

/-- `Map.GetWithExpiration` from map.go: value, expiration instant and
found flag; `(zero V, time.Time{}, false)` when absent or expired. -/
def Map.GetWithExpiration [Inhabited V] (m : Map K V) (now : Nat) (key : K) :
    V × Nat × Bool :=
  match lookupKV key m.kv with
  | some e => if expired now e then (default, 0, false)
              else (e.value, e.exp, true)
  | none => (default, 0, false)

/-- `Map.Delete` from map.go. -/
def Map.Delete (m : Map K V) (key : K) : Map K V :=
  { m with kv := eraseKV key m.kv }

/-- `Map.Clear` from map.go: `clear(m.kv)`. -/
def Map.Clear (m : Map K V) : Map K V := { m with kv := [] }

/-- `Map.RemoveExpired` from map.go: phase one collects the expired keys
under the read lock, phase two deletes exactly the collected keys under
the write lock; returns the number collected. -/
def Map.RemoveExpired (m : Map K V) (now : Nat) : Nat × Map K V :=
  let expiredKeys : List K :=
    (m.kv.filter (fun p => expired now p.2)).map Prod.fst
  (expiredKeys.length,
   { m with kv := expiredKeys.foldl (fun t k => eraseKV k t) m.kv })

/-- Calling `Stop` `n` times in a row. -/
def stopTimes : Nat → Map K V → Map K V
  | 0, m => m
  | n + 1, m => stopTimes n m.Stop

/-- Well-formedness of the Go built-in map: each key has one binding. -/
def Map.WF (m : Map K V) : Prop := (m.kv.map Prod.fst).Nodup

/-- The consumer's response each time the iterator of `Map.All` yields a
pair: `next` resumes the loop (`yield` returned true), `cancel` makes
`yield` return false so the closure returns, `abandon` means the consumer
never resumes the iterator (an `iter.Pull` consumer that walks away
without calling `stop`), so the closure is suspended inside `yield`
forever. -/
inductive YieldResult where
  | next
  | cancel
  | abandon
deriving Repr, DecidableEq

/-- The lock protocol of `Map.All` from map.go: the closure takes
`m.mu.RLock()` once, walks the table yielding the non-expired entries,
and the deferred `RUnlock` runs exactly when the closure returns — on
exhaustion of the range, or when `yield` returns false.  The result is
whether the read lock has been released, as a function of the consumer's
responses (`c i` answers the i-th yielded pair). -/
def allLockReleased (now : Nat) :
    List (K × Entry V) → (Nat → YieldResult) → Bool
  | [], _ => true
  | (_, e) :: rest, c =>
    if expired now e then allLockReleased now rest c
    else
      match c 0 with
      | YieldResult.next => allLockReleased now rest (fun j => c (j + 1))
      | YieldResult.cancel => true
      | YieldResult.abandon => false

/-- Number of pairs `Map.All` yields to a consumer that keeps answering
`next`: the non-expired entries. -/
def liveCount (now : Nat) (t : List (K × Entry V)) : Nat :=
  (t.filter (fun p => !expired now p.2)).length

/-! ### Basic lemmas about the table operations -/

theorem lookupKV_setKV_self (key : K) (e : Entry V) (t : List (K × Entry V)) :
    lookupKV key (setKV key e t) = some e := by
  induction t with
  | nil => simp [setKV, lookupKV]
  | cons p rest ih =>
    obtain ⟨k, e'⟩ := p
    by_cases h : k = key
    · simp [setKV, lookupKV, h]
    · simp [setKV, lookupKV, h, ih]

theorem lookupKV_setKV_ne (key k' : K) (h : k' ≠ key) (e : Entry V)
    (t : List (K × Entry V)) :
    lookupKV k' (setKV key e t) = lookupKV k' t := by
  induction t with
  | nil => simp [setKV, lookupKV, Ne.symm h]
  | cons p rest ih =>
    obtain ⟨k, e'⟩ := p
    by_cases hk : k = key
    · subst hk
      simp [setKV, lookupKV, h, Ne.symm h]
    · simp [setKV, lookupKV, hk, ih]

theorem length_filter_add (p : α → Bool) (l : List α) :
    (l.filter p).length + (l.filter (fun a => !p a)).length = l.length := by
  induction l with
  | nil => simp
  | cons a l ih =>
    cases h : p a <;> simp [List.filter_cons, h] <;> omega

theorem foldl_eraseKV_eq_filter (ks : List K) (t : List (K × Entry V)) :
    ks.foldl (fun acc k => eraseKV k acc) t
      = t.filter (fun p => decide (p.1 ∉ ks)) := by
  induction ks generalizing t with
  | nil => simp
  | cons k ks ih =>
    rw [List.foldl_cons, ih, eraseKV, List.filter_filter]
    apply List.filter_congr
    intro p _
    by_cases h : p.1 = k <;> simp [h]

omit [DecidableEq K] in
theorem eq_of_mem_nodup_keys {t : List (K × Entry V)}
    (hnd : (t.map Prod.fst).Nodup) {p q : K × Entry V}
    (hp : p ∈ t) (hq : q ∈ t) (hk : p.1 = q.1) : p = q := by
  induction t with
  | nil => cases hp
  | cons a t ih =>
    simp only [List.map_cons, List.nodup_cons] at hnd
    rcases List.mem_cons.mp hp with hpa | hp2
    · rcases List.mem_cons.mp hq with hqa | hq2
      · rw [hpa, hqa]
      · subst hpa
        have hmem := List.mem_map_of_mem Prod.fst hq2
        rw [← hk] at hmem
        exact absurd hmem hnd.1
    · rcases List.mem_cons.mp hq with hqa | hq2
      · subst hqa
        have hmem := List.mem_map_of_mem Prod.fst hp2
        rw [hk] at hmem
        exact absurd hmem hnd.1
      · exact ih hnd.2 hp2 hq2

theorem removeExpired_kv_eq_filter (m : Map K V) (now : Nat) (h : m.WF) :
    (m.RemoveExpired now).2.kv = m.kv.filter (fun p => !expired now p.2) := by
  show ((m.kv.filter (fun p => expired now p.2)).map Prod.fst).foldl
      (fun t k => eraseKV k t) m.kv = _
  rw [foldl_eraseKV_eq_filter]
  apply List.filter_congr
  intro p hp
  have hm : p.1 ∈ (m.kv.filter (fun q => expired now q.2)).map Prod.fst
      ↔ expired now p.2 = true := by
    constructor
    · intro hmem
      rcases List.mem_map.mp hmem with ⟨q, hq, hq1⟩
      have hqkv := List.mem_of_mem_filter hq
      have hqp : q = p := eq_of_mem_nodup_keys h hqkv hp hq1
      exact hqp ▸ (List.mem_filter.mp hq).2
    · intro he
      exact List.mem_map_of_mem Prod.fst (List.mem_filter.mpr ⟨hp, he⟩)
  by_cases he : expired now p.2 <;> simp [hm, he]

instance (m : Map K V) : Decidable m.WF :=
  inferInstanceAs (Decidable ((m.kv.map Prod.fst).Nodup))

omit [DecidableEq K] in
theorem map_eq_of_fields {m1 m2 : Map K V} (h1 : m1.kv = m2.kv)
    (h2 : m1.stopped = m2.stopped) : m1 = m2 := by
  cases m1
  cases m2
  simp_all

theorem lookupKV_mem {key : K} {t : List (K × Entry V)} {e : Entry V}
    (h : lookupKV key t = some e) : (key, e) ∈ t := by
  induction t with
  | nil => cases h
  | cons p rest ih =>
    obtain ⟨k2, e2⟩ := p
    by_cases hk : k2 = key
    · subst hk
      simp only [lookupKV, if_pos] at h
      exact List.mem_cons.mpr (Or.inl (by rw [Option.some.inj h]))
    · simp only [lookupKV, hk, if_false, ite_false] at h
      exact List.mem_cons_of_mem _ (ih h)

omit [DecidableEq K] in
theorem stop_stop (m : Map K V) : (m.Stop).Stop = m.Stop := by
  by_cases h : m.stopped <;> simp [Map.Stop, h]

/-! ### Claim theorems -/

/-- Claim C3: a key set with ttl `d > 0` at time `t0` is found by `Get` at
every query time up to and including `t0 + d`, and not found at every
query time strictly after `t0 + d`; the boundary instant `t0 + d` itself
still finds the key because the expiry predicate is strict. -/
theorem c3_get_ttl_boundary [Inhabited V] (m : Map K V) (t0 t : Nat) (k : K)
    (v : V) (d : Int) (hd : 0 < d) :
    (t ≤ t0 + d.toNat → (m.Set t0 k v d).Get t k = (v, true)) ∧
    (t0 + d.toNat < t → (m.Set t0 k v d).Get t k = (default, false)) := by
  have hlook : lookupKV k (m.Set t0 k v d).kv = some ⟨v, t0 + d.toNat⟩ := by
    simp only [Map.Set, hd, if_pos]
    exact lookupKV_setKV_self k _ m.kv
  have hexp : (0 : Nat) < t0 + d.toNat := by omega
  constructor
  · intro ht
    have : expired t (⟨v, t0 + d.toNat⟩ : Entry V) = false := by
      simp only [expired]
      simp only [bne_iff_ne, ne_eq, decide_eq_true_eq, Bool.and_eq_false_iff,
        decide_eq_false_iff_not, not_lt]
      right
      omega
    simp [Map.Get, hlook, this]
  · intro ht
    have : expired t (⟨v, t0 + d.toNat⟩ : Entry V) = true := by
      simp only [expired, Bool.and_eq_true, bne_iff_ne, ne_eq,
        decide_eq_true_eq]
      omega
    simp [Map.Get, hlook, this]

/-- Claim C3 witness: set key 1 at time 5 with ttl 3; found at the
boundary time 8 and not found at time 9. -/
theorem c3_witness :
    ((Map.New (K := Nat) (V := Nat)).Set 5 1 42 3).Get 8 1 = (42, true) ∧
    ((Map.New (K := Nat) (V := Nat)).Set 5 1 42 3).Get 9 1 = (0, false) := by
  have h := c3_get_ttl_boundary (Map.New (K := Nat) (V := Nat)) 5 8 1 42 3
    (by decide)
  have h9 := c3_get_ttl_boundary (Map.New (K := Nat) (V := Nat)) 5 9 1 42 3
    (by decide)
  exact ⟨h.1 (by decide), h9.2 (by decide)⟩

theorem set_nonpos_ttl_sentinel [Inhabited V] (m : Map K V) (t0 t : Nat)
    (k : K) (v : V) (ttl : Int) (h : ttl ≤ 0) :
    lookupKV k (m.Set t0 k v ttl).kv = some ⟨v, 0⟩ ∧
    (m.Set t0 k v ttl).GetWithExpiration t k = (v, 0, true) := by
  have hlook : lookupKV k (m.Set t0 k v ttl).kv = some ⟨v, 0⟩ := by
    have hz : ¬(0 < ttl) := by omega
    simp only [Map.Set, hz, if_neg, not_false_eq_true]
    exact lookupKV_setKV_self k _ m.kv
  have hexp : expired t (⟨v, 0⟩ : Entry V) = false := by
    simp [expired]
  exact ⟨hlook, by simp [Map.GetWithExpiration, hlook, hexp]⟩

/-- Claim C8: a key set with any ttl not strictly greater than zero stores
the zero-instant "never expires" sentinel, and `GetWithExpiration` finds
it at every later query time, returning the sentinel expiry. -/
theorem c8_ttl_zero_never_expires [Inhabited V] (m : Map K V) (t0 t : Nat)
    (k : K) (v : V) (ttl : Int) (h : ttl ≤ 0) :
    lookupKV k (m.Set t0 k v ttl).kv = some ⟨v, 0⟩ ∧
    (m.Set t0 k v ttl).GetWithExpiration t k = (v, 0, true) :=
  set_nonpos_ttl_sentinel m t0 t k v ttl h

/-- Claim C8 witness: key 1 set at time 5 with ttl 0 is still found at
time 1000000 with the zero-expiry sentinel. -/
theorem c8_witness :
    ((Map.New (K := Nat) (V := Nat)).Set 5 1 7 0).GetWithExpiration
      1000000 1 = (7, 0, true) := by
  exact (c8_ttl_zero_never_expires (Map.New (K := Nat) (V := Nat)) 5 1000000
    1 7 0 (by decide)).2

/-- Claim C5: `Update` on a key that is absent, or whose entry is expired
at call time, returns false and leaves the whole map state (hence the
table size) unchanged. -/
theorem c5_update_dead_noop (m : Map K V) (now : Nat) (k : K) (v : V)
    (h : lookupKV k m.kv = none ∨
      ∃ e, lookupKV k m.kv = some e ∧ expired now e = true) :
    m.Update now k v = (false, m) := by
  rcases h with hnone | ⟨e, hsome, hexp⟩
  · simp [Map.Update, hnone]
  · simp [Map.Update, hsome, hexp]

/-- Claim C5 witness: updating the expired key 1 (expiry 3, now 10) and
the absent key 2 both return false and change nothing. -/
theorem c5_witness :
    Map.Update { kv := [(1, ⟨5, 3⟩)], stopped := false } 10 1 99
      = (false, { kv := [(1, (⟨5, 3⟩ : Entry Nat))], stopped := false }) ∧
    Map.Update { kv := [(1, ⟨5, 3⟩)], stopped := false } 10 2 99
      = (false, { kv := [(1, (⟨5, 3⟩ : Entry Nat))], stopped := false }) := by
  constructor
  · exact c5_update_dead_noop _ 10 1 99 (Or.inr ⟨⟨5, 3⟩, by decide, by decide⟩)
  · exact c5_update_dead_noop _ 10 2 99 (Or.inl (by decide))

/-- Claim C6: `Update` on a present, non-expired key returns true and
replaces only the value: a subsequent `GetWithExpiration` returns the new
value with the same expiry as before the update, and every other key's
binding is untouched. -/
theorem c6_update_live_preserves_expiry [Inhabited V] (m : Map K V)
    (now : Nat) (k : K) (v : V) (e : Entry V)
    (hl : lookupKV k m.kv = some e) (he : expired now e = false) :
    (m.Update now k v).1 = true ∧
    (m.Update now k v).2.GetWithExpiration now k
      = (v, (m.GetWithExpiration now k).2.1, true) ∧
    (∀ k2, k2 ≠ k →
      lookupKV k2 (m.Update now k v).2.kv = lookupKV k2 m.kv) := by
  have hupd : m.Update now k v
      = (true, { m with kv := setKV k ⟨v, e.exp⟩ m.kv }) := by
    simp [Map.Update, hl, he]
  refine ⟨by rw [hupd], ?_, ?_⟩
  · have hlook2 : lookupKV k (setKV k (⟨v, e.exp⟩ : Entry V) m.kv)
        = some ⟨v, e.exp⟩ := lookupKV_setKV_self k _ m.kv
    have hexp2 : expired now (⟨v, e.exp⟩ : Entry V) = false := by
      simpa [expired] using he
    rw [hupd]
    simp [Map.GetWithExpiration, hlook2, hexp2, hl, he]
  · intro k2 hk2
    rw [hupd]
    exact lookupKV_setKV_ne k k2 hk2 _ m.kv

/-- Claim C6 witness: updating live key 1 (expiry 30, now 10) to value 9
keeps expiry 30 and leaves key 2 untouched. -/
theorem c6_witness :
    (Map.Update (⟨[(1, ⟨5, 30⟩), (2, ⟨6, 0⟩)], false⟩ : Map Nat Nat)
      10 1 9).1 = true ∧
    (Map.Update (⟨[(1, ⟨5, 30⟩), (2, ⟨6, 0⟩)], false⟩ : Map Nat Nat)
      10 1 9).2.GetWithExpiration 10 1 = (9, 30, true) := by
  have h := c6_update_live_preserves_expiry
    (V := Nat) { kv := [(1, ⟨5, 30⟩), (2, ⟨6, 0⟩)], stopped := false }
    10 1 9 ⟨5, 30⟩ (by decide) (by decide)
  refine ⟨h.1, ?_⟩
  have h2 := h.2.1
  simpa using h2

/-- Claim C10: `GetWithExpiration` on an absent or expired key returns the
zero value, the zero instant and false; the expiry component coincides
with the one returned for a found never-expiring key (set with ttl 0), so
only the boolean distinguishes the two cases. -/
theorem c10_notfound_sentinel [Inhabited V] (m m2 : Map K V)
    (now t0 t : Nat) (k k2 : K) (v : V)
    (h : lookupKV k m.kv = none ∨
      ∃ e, lookupKV k m.kv = some e ∧ expired now e = true) :
    m.GetWithExpiration now k = (default, 0, false) ∧
    ((m2.Set t0 k2 v 0).GetWithExpiration t k2).2.1
      = (m.GetWithExpiration now k).2.1 ∧
    ((m2.Set t0 k2 v 0).GetWithExpiration t k2).2.2 = true := by
  have hnf : m.GetWithExpiration now k = (default, 0, false) := by
    rcases h with hnone | ⟨e, hsome, hexp⟩
    · simp [Map.GetWithExpiration, hnone]
    · simp [Map.GetWithExpiration, hsome, hexp]
  have hzero := set_nonpos_ttl_sentinel m2 t0 t k2 v 0 (by omega)
  exact ⟨hnf, by rw [hzero.2, hnf], by rw [hzero.2]⟩

/-- Claim C10 witness: expired key 1 at now 10 gives `(0, 0, false)`,
while key 3 set with ttl 0 gives expiry component 0 and found true. -/
theorem c10_witness :
    Map.GetWithExpiration { kv := [(1, ⟨5, 3⟩)], stopped := false } 10 1
      = ((0 : Nat), 0, false) ∧
    ((Map.New (K := Nat) (V := Nat)).Set 0 3 8 0).GetWithExpiration 99 3
      = (8, 0, true) := by
  have h := c10_notfound_sentinel (V := Nat)
    { kv := [(1, ⟨5, 3⟩)], stopped := false } Map.New 10 0 99 1 3 8
    (Or.inr ⟨⟨5, 3⟩, by decide, by decide⟩)
  exact ⟨h.1, by decide⟩

/-- Claim C1 counterexample: a `Set` performed after `Stop` repopulates
the table — on the stopped empty map, `Set` of key 1 makes a subsequent
`Get` return `(2, true)` and `Len` return 1, so mutations after `Stop`
are not all no-ops and reads do not all return "not found". -/
theorem c1_counterexample :
    ((((Map.New (K := Nat) (V := Nat)).Stop).Set 0 1 2 0).Get 0 1
      = (2, true)) ∧
    ((((Map.New (K := Nat) (V := Nat)).Stop).Set 0 1 2 0).Len = 1) := by
  decide

/-- Claim C1 amended: the first `Stop` clears the table and sets the
stopped flag, and afterwards — as long as no further `Set` is made — every
read returns not found and `Update` returns false leaving the state
unchanged, while `Delete` and `Clear` are no-ops on the cleared table; but
mutations are not guarded by the stopped flag, so a later `Set` does
repopulate the table and a subsequent `Get` finds the new entry. -/
theorem c1_amended_stop_behavior [Inhabited V] (m : Map K V)
    (h : m.stopped = false) (now : Nat) (k : K) (v : V) :
    (m.Stop).kv = [] ∧ (m.Stop).stopped = true ∧
    (m.Stop).Get now k = (default, false) ∧
    (m.Stop).Update now k v = (false, m.Stop) ∧
    (m.Stop).Delete k = m.Stop ∧
    (m.Stop).Clear = m.Stop ∧
    ((m.Stop).Set now k v 0).Get now k = (v, true) := by
  have hstop : m.Stop = ⟨[], true⟩ := by simp [Map.Stop, h]
  rw [hstop]
  refine ⟨rfl, rfl, ?_, ?_, rfl, rfl, ?_⟩
  · simp [Map.Get, lookupKV]
  · simp [Map.Update, lookupKV]
  · simp [Map.Set, Map.Get, setKV, lookupKV, expired]

/-- Claim C1 witness: on a fresh map, after `Stop` the key 1 is not
found, and a `Set` after `Stop` makes it found again. -/
theorem c1_witness :
    ((Map.New (K := Nat) (V := Nat)).Stop).Get 3 1 = (0, false) ∧
    (((Map.New (K := Nat) (V := Nat)).Stop).Set 3 1 5 0).Get 3 1
      = (5, true) := by
  have h := c1_amended_stop_behavior (Map.New (K := Nat) (V := Nat))
    (by decide) 3 1 5
  exact ⟨h.2.2.1, h.2.2.2.2.2.2⟩

omit [DecidableEq K] in
/-- Claim C7: `Stop` is idempotent — calling it any positive number of
times from any state produces exactly the state of a single call. -/
theorem c7_stop_idempotent (m : Map K V) (n : Nat) (h : 0 < n) :
    stopTimes n m = m.Stop := by
  induction n generalizing m with
  | zero => omega
  | succ n ih =>
    cases Nat.eq_zero_or_pos n with
    | inl h0 =>
      subst h0
      rfl
    | inr hpos =>
      show stopTimes n m.Stop = m.Stop
      rw [ih m.Stop hpos, stop_stop]

/-- Claim C7 witness: three consecutive `Stop` calls on a one-entry map
equal a single `Stop`. -/
theorem c7_witness :
    stopTimes 3 (⟨[(1, ⟨4, 9⟩)], false⟩ : Map Nat Nat)
      = (⟨[(1, ⟨4, 9⟩)], false⟩ : Map Nat Nat).Stop :=
  c7_stop_idempotent _ 3 (by decide)

/-- Claim C4: for every well-formed map state and current time,
`RemoveExpired` returns exactly the number of entries whose expiry
predicate holds, its resulting table keeps precisely the non-expired
entries unchanged, and with no expired entry it returns 0 and leaves the
map intact. -/
theorem c4_removeExpired_exact (m : Map K V) (now : Nat) (h : m.WF) :
    (m.RemoveExpired now).1
      = (m.kv.filter (fun p => expired now p.2)).length ∧
    (m.RemoveExpired now).2.kv
      = m.kv.filter (fun p => !expired now p.2) ∧
    (m.RemoveExpired now).2.stopped = m.stopped ∧
    ((∀ p ∈ m.kv, expired now p.2 = false) →
      (m.RemoveExpired now).1 = 0 ∧ (m.RemoveExpired now).2 = m) := by
  have hkv := removeExpired_kv_eq_filter m now h
  refine ⟨by simp [Map.RemoveExpired], hkv, rfl, ?_⟩
  intro hnone
  have hall : m.kv.filter (fun p => !expired now p.2) = m.kv := by
    rw [List.filter_eq_self]
    intro p hp
    simp [hnone p hp]
  constructor
  · have hfil : m.kv.filter (fun p => expired now p.2) = [] := by
      rw [List.filter_eq_nil_iff]
      intro p hp
      simp [hnone p hp]
    simp [Map.RemoveExpired, hfil]
  · refine map_eq_of_fields ?_ rfl
    rw [hkv, hall]

/-- Claim C4 witness: at time 10, the map with keys 1 (expiry 3), 2
(never expires) and 3 (expiry 30) loses exactly key 1 and reports one
removal; at time 0 nothing is expired and the call changes nothing. -/
theorem c4_witness :
    (Map.RemoveExpired
      (⟨[(1, ⟨5, 3⟩), (2, ⟨6, 0⟩), (3, ⟨7, 30⟩)], false⟩ : Map Nat Nat) 10).1
      = 1 ∧
    (Map.RemoveExpired
      (⟨[(1, ⟨5, 3⟩), (2, ⟨6, 0⟩), (3, ⟨7, 30⟩)], false⟩ : Map Nat Nat)
      10).2.kv = [(2, ⟨6, 0⟩), (3, ⟨7, 30⟩)] ∧
    Map.RemoveExpired
      (⟨[(1, ⟨5, 3⟩), (2, ⟨6, 0⟩), (3, ⟨7, 30⟩)], false⟩ : Map Nat Nat) 0
      = (0, ⟨[(1, ⟨5, 3⟩), (2, ⟨6, 0⟩), (3, ⟨7, 30⟩)], false⟩) := by
  have h10 := c4_removeExpired_exact
    (⟨[(1, ⟨5, 3⟩), (2, ⟨6, 0⟩), (3, ⟨7, 30⟩)], false⟩ : Map Nat Nat) 10
    (by decide)
  have h0 := c4_removeExpired_exact
    (⟨[(1, ⟨5, 3⟩), (2, ⟨6, 0⟩), (3, ⟨7, 30⟩)], false⟩ : Map Nat Nat) 0
    (by decide)
  refine ⟨by rw [h10.1]; decide, by rw [h10.2.1]; decide, ?_⟩
  have h3 := h0.2.2.2 (by decide)
  have : Map.RemoveExpired
      (⟨[(1, ⟨5, 3⟩), (2, ⟨6, 0⟩), (3, ⟨7, 30⟩)], false⟩ : Map Nat Nat) 0
      = ((Map.RemoveExpired
        (⟨[(1, ⟨5, 3⟩), (2, ⟨6, 0⟩), (3, ⟨7, 30⟩)], false⟩ : Map Nat Nat)
        0).1,
        (Map.RemoveExpired
        (⟨[(1, ⟨5, 3⟩), (2, ⟨6, 0⟩), (3, ⟨7, 30⟩)], false⟩ : Map Nat Nat)
        0).2) := rfl
  rw [this, h3.1, h3.2]

/-- Claim C9: `Len` returns the raw table size including expired entries
that have not been swept: when some key holds an expired entry, `Get`
reports it not found, yet `Len` equals the post-sweep length plus the
number of entries `RemoveExpired` would remove, and is positive. -/
theorem c9_len_counts_expired [Inhabited V] (m : Map K V) (now : Nat)
    (k : K) (e : Entry V) (hl : lookupKV k m.kv = some e)
    (he : expired now e = true) (h : m.WF) :
    m.Get now k = (default, false) ∧
    m.Len = (m.RemoveExpired now).2.Len + (m.RemoveExpired now).1 ∧
    0 < m.Len := by
  refine ⟨by simp [Map.Get, hl, he], ?_, ?_⟩
  · have hkv := removeExpired_kv_eq_filter m now h
    have hlen : (m.RemoveExpired now).1
        = (m.kv.filter (fun p => expired now p.2)).length := by
      simp [Map.RemoveExpired]
    rw [Map.Len, Map.Len, hkv, hlen]
    have := length_filter_add (fun p => expired now p.2) m.kv
    omega
  · have hmem := lookupKV_mem hl
    have : m.kv ≠ [] := List.ne_nil_of_mem hmem
    simpa [Map.Len, List.length_pos] using this

/-- Claim C9 witness: at time 10 the map with expired key 1 and live key
2 answers not found for key 1, yet `Len` is 2 = 1 live + 1 removable. -/
theorem c9_witness :
    Map.Get (⟨[(1, ⟨5, 3⟩), (2, ⟨6, 0⟩)], false⟩ : Map Nat Nat) 10 1
      = (0, false) ∧
    Map.Len (⟨[(1, ⟨5, 3⟩), (2, ⟨6, 0⟩)], false⟩ : Map Nat Nat) = 2 := by
  have h := c9_len_counts_expired
    (⟨[(1, ⟨5, 3⟩), (2, ⟨6, 0⟩)], false⟩ : Map Nat Nat) 10 1 ⟨5, 3⟩
    (by decide) (by decide) (by decide)
  exact ⟨h.1, by decide⟩

omit [DecidableEq K] in
theorem allLockReleased_eq_false_iff (now : Nat) (t : List (K × Entry V))
    (c : Nat → YieldResult) :
    allLockReleased now t c = false ↔
    ∃ i, i < liveCount now t ∧ (∀ j, j < i → c j = YieldResult.next) ∧
      c i = YieldResult.abandon := by
  induction t generalizing c with
  | nil => simp [allLockReleased, liveCount]
  | cons p rest ih =>
    obtain ⟨k, e⟩ := p
    cases hexp : expired now e with
    | true =>
      have hred : allLockReleased now ((k, e) :: rest) c
          = allLockReleased now rest c := by
        simp [allLockReleased, hexp]
      have hlc : liveCount now ((k, e) :: rest) = liveCount now rest := by
        simp [liveCount, List.filter_cons, hexp]
      rw [hred, hlc]
      exact ih c
    | false =>
      have hlc : liveCount now ((k, e) :: rest) = liveCount now rest + 1 := by
        simp [liveCount, List.filter_cons, hexp]
      cases hc0 : c 0 with
      | next =>
        have hred : allLockReleased now ((k, e) :: rest) c
            = allLockReleased now rest (fun j => c (j + 1)) := by
          simp [allLockReleased, hexp, hc0]
        rw [hred, ih, hlc]
        constructor
        · rintro ⟨i, hi, hprev, habs⟩
          refine ⟨i + 1, by omega, ?_, habs⟩
          intro j hj
          cases j with
          | zero => exact hc0
          | succ j2 => exact hprev j2 (by omega)
        · rintro ⟨i, hi, hprev, habs⟩
          cases i with
          | zero => rw [hc0] at habs; cases habs
          | succ i2 =>
            exact ⟨i2, by omega, fun j hj => hprev (j + 1) (by omega), habs⟩
      | cancel =>
        have hred : allLockReleased now ((k, e) :: rest) c = true := by
          simp [allLockReleased, hexp, hc0]
        rw [hred]
        refine iff_of_false (by simp) ?_
        rintro ⟨i, hi, hprev, habs⟩
        cases i with
        | zero => rw [hc0] at habs; cases habs
        | succ i2 =>
          have h0 := hprev 0 (by omega)
          rw [hc0] at h0
          cases h0
      | abandon =>
        have hred : allLockReleased now ((k, e) :: rest) c = false := by
          simp [allLockReleased, hexp, hc0]
        rw [hred, hlc]
        refine iff_of_true rfl ⟨0, by omega, ?_, hc0⟩
        intro j hj
        exact absurd hj (Nat.not_lt_zero j)

omit [DecidableEq K] in
/-- Claim C2: the `All` iterator holds the reader lock for the whole
traversal, and the single deferred unlock runs exactly when the sequence
is exhausted or the consumer signals cancellation (`yield` returning
false): the lock is left held if and only if the consumer answers `next`
to some prefix of the live entries and then abandons the iteration
mid-sequence without cancelling. -/
theorem c2_all_lock_release (m : Map K V) (now : Nat)
    (c : Nat → YieldResult) :
    allLockReleased now m.kv c = false ↔
    ∃ i, i < liveCount now m.kv ∧ (∀ j, j < i → c j = YieldResult.next) ∧
      c i = YieldResult.abandon :=
  allLockReleased_eq_false_iff now m.kv c

end XMapModel
